import Mathlib

/-!
Shallow embedding of the two-level TLB simulator in `src/.../tlb.c` and
verification of the specification's claims about it.

The C globals (`tlb_l1`, `tlb_l2`, the six statistics counters and the
static `access_counter`) are gathered into a `TLBState` record; the array
sizes and `PAGE_SIZE_BITS` come from the missing `constants.h` and are kept
as a `TLBConfig` parameter.  `uint64_t` values are modelled as `Nat` (the
access counter is bumped at most twice per call, so 64-bit wrap-around is
out of reach for any trace considered here).  External collaborators:
`page_table_translate` is passed in as the value it would return on this
call, `write_back_tlb_entry` is recorded in an event list `write_backs`,
and `increment_time` (pure latency accounting, no state read) is elided.
-/

/-- One slot of either TLB level, mirroring the C `tlb_entry_t`. -/
structure TLBEntry where
  valid : Bool
  dirty : Bool
  last_access : Nat
  virtual_page_number : Nat
  physical_page_number : Nat
deriving Repr, DecidableEq

/-- The all-zero entry produced by `memset(..., 0, ...)` in `tlb_init`. -/
def zeroEntry : TLBEntry := ⟨false, false, 0, 0, 0⟩

instance : Inhabited TLBEntry := ⟨zeroEntry⟩

/-- The C `op_t` (`OP_READ` / `OP_WRITE`). -/
inductive Op where
  | OP_READ : Op
  | OP_WRITE : Op
deriving Repr, DecidableEq

/-- Boolean form of the C comparison `op == OP_WRITE`. -/
def Op.isWrite : Op → Bool
  | .OP_READ => false
  | .OP_WRITE => true

/-- Configuration constants from `constants.h` (not in the sources;
sizes and page bits are configurable per the spec). -/
structure TLBConfig where
  TLB_L1_SIZE : Nat
  TLB_L2_SIZE : Nat
  PAGE_SIZE_BITS : Nat
deriving Repr, DecidableEq

/-- The mutable globals of `tlb.c`, plus a log of the
`write_back_tlb_entry` calls issued so far (most recent last). -/
structure TLBState where
  tlb_l1 : List TLBEntry
  tlb_l2 : List TLBEntry
  tlb_l1_hits : Nat
  tlb_l1_misses : Nat
  tlb_l1_invalidations : Nat
  tlb_l2_hits : Nat
  tlb_l2_misses : Nat
  tlb_l2_invalidations : Nat
  access_counter : Nat
  write_backs : List Nat
deriving Repr, DecidableEq

/-- Index of the first entry satisfying `p`, as the C `for`-loops with
`break` compute it. -/
def firstIdx (p : TLBEntry → Bool) : List TLBEntry → Option Nat
  | [] => none
  | e :: rest => if p e then some 0 else (firstIdx p rest).map (· + 1)

/-- The linear probe `tlb[i].valid && tlb[i].virtual_page_number == vpn`
used by both levels of `tlb_translate` and by `tlb_invalidate`. -/
def probe (l : List TLBEntry) (vpn : Nat) : Option Nat :=
  firstIdx (fun e => e.valid && e.virtual_page_number == vpn) l

/-- The second loop of `find_lru_victim_l1`/`_l2`: running over the slots
from index `i`, keep the index `lru` of the smallest `last_access` seen so
far (`oldest`), updating only on strict decrease (ties keep the earlier
index). -/
def scan_lru (l : List TLBEntry) (i lru oldest : Nat) : Nat :=
  match l with
  | [] => lru
  | e :: rest =>
      if e.last_access < oldest then scan_lru rest (i + 1) i e.last_access
      else scan_lru rest (i + 1) lru oldest

/-- `find_lru_victim_l1` / `find_lru_victim_l2` of `tlb.c` (identical code
on the two arrays): first invalid slot if any, otherwise the LRU scan
seeded with slot 0. -/
def find_lru_victim (l : List TLBEntry) : Nat :=
  match firstIdx (fun e => !e.valid) l with
  | some i => i
  | none => scan_lru (l.drop 1) 1 0 (l.getD 0 zeroEntry).last_access

/-- The re-scan of `tlb_translate` lines 229-239, run when the L2 victim
equals the hit slot `iExcl`: from index `j`, track the running minimum
`oldest` over ALL slots but move `pos` only when the improving index
differs from `iExcl` (embedded verbatim, including the quirk that `oldest`
is updated even at `j = iExcl`). -/
def scan_excl (l : List TLBEntry) (iExcl j pos oldest : Nat) : Nat :=
  match l with
  | [] => pos
  | e :: rest =>
      if e.last_access < oldest then
        scan_excl rest iExcl (j + 1) (if j ≠ iExcl then j else pos) e.last_access
      else scan_excl rest iExcl (j + 1) pos oldest

/-- Lines 228-239 of `tlb_translate`: starting from `l2_pos = iExcl`,
re-scan for the next-oldest slot avoiding `iExcl`. -/
def rescan_excluding (l : List TLBEntry) (iExcl : Nat) : Nat :=
  scan_excl (l.drop 1) iExcl 1 iExcl (l.getD 0 zeroEntry).last_access

/-- `tlb_init`: zeroes both arrays and the six statistics counters.  The
static `access_counter` is NOT touched by the C function, and no
`write_back_tlb_entry` call is made. -/
def tlb_init (c : TLBConfig) (s : TLBState) : TLBState :=
  { s with
    tlb_l1 := List.replicate c.TLB_L1_SIZE zeroEntry
    tlb_l2 := List.replicate c.TLB_L2_SIZE zeroEntry
    tlb_l1_hits := 0, tlb_l1_misses := 0, tlb_l1_invalidations := 0
    tlb_l2_hits := 0, tlb_l2_misses := 0, tlb_l2_invalidations := 0 }

/-- Process-start state: static initialisers zero every global, then the
simulator calls `tlb_init`. -/
def startState (c : TLBConfig) : TLBState :=
  { tlb_l1 := List.replicate c.TLB_L1_SIZE zeroEntry
    tlb_l2 := List.replicate c.TLB_L2_SIZE zeroEntry
    tlb_l1_hits := 0, tlb_l1_misses := 0, tlb_l1_invalidations := 0
    tlb_l2_hits := 0, tlb_l2_misses := 0, tlb_l2_invalidations := 0
    access_counter := 0
    write_backs := [] }

/-- `tlb_invalidate`: invalidate the first L1 match (no write-back, the
dirty write-back there is commented out in the source), then the first L2
match (write-back first when dirty). -/
def tlb_invalidate (c : TLBConfig) (s : TLBState) (vpn : Nat) : TLBState :=
  let s1 :=
    match probe s.tlb_l1 vpn with
    | some i =>
        { s with
          tlb_l1 := s.tlb_l1.set i { s.tlb_l1.getD i zeroEntry with valid := false }
          tlb_l1_invalidations := s.tlb_l1_invalidations + 1 }
    | none => s
  match probe s1.tlb_l2 vpn with
  | some i =>
      let e := s1.tlb_l2.getD i zeroEntry
      { s1 with
        tlb_l2 := s1.tlb_l2.set i { e with valid := false }
        tlb_l2_invalidations := s1.tlb_l2_invalidations + 1
        write_backs :=
          if e.dirty then
            s1.write_backs ++ [e.physical_page_number <<< c.PAGE_SIZE_BITS]
          else s1.write_backs }
  | none => s1

/-- L1-hit branch of `tlb_translate` (lines 186-201): bump the hit
counter, refresh `last_access` with `++access_counter`, set the dirty bit
on writes, and rebuild the physical address from the entry. -/
def l1HitStep (c : TLBConfig) (s : TLBState) (i : Nat) (op : Op)
    (page_offset : Nat) : TLBState × Nat :=
  let e := s.tlb_l1.getD i zeroEntry
  let n := s.access_counter + 1
  let e1 := { e with last_access := n, dirty := if op.isWrite then true else e.dirty }
  ({ s with
      tlb_l1 := s.tlb_l1.set i e1
      tlb_l1_hits := s.tlb_l1_hits + 1
      access_counter := n },
   (e1.physical_page_number <<< c.PAGE_SIZE_BITS) ||| page_offset)

/-- The L2 slot that receives a demoted valid-and-dirty L1 victim during
promotion (lines 225-239 of `tlb_translate`): the LRU victim of the
refreshed L2 array, re-scanned to exclude the hit slot `i` if the first
choice lands on it. -/
def demotionSlot (s : TLBState) (i : Nat) (op : Op) : Nat :=
  let n := s.access_counter + 1
  let e := s.tlb_l2.getD i zeroEntry
  let e2 := { e with last_access := n, dirty := if op.isWrite then true else e.dirty }
  let l2a := s.tlb_l2.set i e2
  let p0 := find_lru_victim l2a
  if p0 = i then rescan_excluding l2a i else p0

/-- L2-hit branch of `tlb_translate` (lines 208-252): refresh the hit
entry, then promote it into an L1 victim slot; a valid-and-dirty L1 victim
is first demoted into the L2 slot `demotionSlot s i op`.  The promoted
copy is read from the post-demotion L2 array, the result from the final L2
array, exactly as the C code does. -/
def l2HitStep (c : TLBConfig) (s : TLBState) (i : Nat) (op : Op)
    (page_offset : Nat) : TLBState × Nat :=
  let n := s.access_counter + 1
  let e := s.tlb_l2.getD i zeroEntry
  let e2 := { e with last_access := n, dirty := if op.isWrite then true else e.dirty }
  let l2a := s.tlb_l2.set i e2
  let l1_pos := find_lru_victim s.tlb_l1
  let victim := s.tlb_l1.getD l1_pos zeroEntry
  let l2b :=
    if victim.valid && victim.dirty then l2a.set (demotionSlot s i op) victim
    else l2a
  let l1' := s.tlb_l1.set l1_pos (l2b.getD i zeroEntry)
  let l2c := l2b.set i { l2b.getD i zeroEntry with last_access := n }
  ({ s with
      tlb_l1 := l1'
      tlb_l2 := l2c
      tlb_l2_hits := s.tlb_l2_hits + 1
      access_counter := n },
   ((l2c.getD i zeroEntry).physical_page_number <<< c.PAGE_SIZE_BITS) ||| page_offset)

/-- Full-miss branch of `tlb_translate` (lines 256-286): page-table
fallback, write-back of a valid-and-dirty L2 victim, insertion into L2
with `++access_counter`, then insertion into L1 with a second
`++access_counter`. -/
def missFillStep (c : TLBConfig) (s : TLBState) (vpn : Nat) (op : Op)
    (physical_address : Nat) : TLBState × Nat :=
  let ppn := physical_address >>> c.PAGE_SIZE_BITS
  let l2_pos := find_lru_victim s.tlb_l2
  let victim2 := s.tlb_l2.getD l2_pos zeroEntry
  let wb :=
    if victim2.valid && victim2.dirty then
      s.write_backs ++ [victim2.physical_page_number <<< c.PAGE_SIZE_BITS]
    else s.write_backs
  let n1 := s.access_counter + 1
  let l2' := s.tlb_l2.set l2_pos ⟨true, op.isWrite, n1, vpn, ppn⟩
  let l1_pos := find_lru_victim s.tlb_l1
  let n2 := n1 + 1
  let l1' := s.tlb_l1.set l1_pos ⟨true, op.isWrite, n2, vpn, ppn⟩
  ({ s with
      tlb_l1 := l1'
      tlb_l2 := l2'
      access_counter := n2
      write_backs := wb },
   physical_address)

/-- `tlb_translate`: L1 probe, else L2 probe (bumping `tlb_l1_misses`),
else page-table fallback (bumping `tlb_l2_misses`).  `page_table_result`
stands for the value `page_table_translate(virtual_address, op)` returns
on this call (used only on a full miss). -/
def tlb_translate (c : TLBConfig) (s : TLBState) (virtual_address : Nat)
    (op : Op) (page_table_result : Nat) : TLBState × Nat :=
  let vpn := virtual_address >>> c.PAGE_SIZE_BITS
  let page_offset := virtual_address &&& ((1 <<< c.PAGE_SIZE_BITS) - 1)
  match probe s.tlb_l1 vpn with
  | some i => l1HitStep c s i op page_offset
  | none =>
      let s1 := { s with tlb_l1_misses := s.tlb_l1_misses + 1 }
      match probe s1.tlb_l2 vpn with
      | some i => l2HitStep c s1 i op page_offset
      | none =>
          missFillStep c { s1 with tlb_l2_misses := s1.tlb_l2_misses + 1 }
            vpn op page_table_result

/-- States reachable from process start by any sequence of `tlb_translate`
and `tlb_invalidate` calls (the page-table result of each translate call
is arbitrary). -/
inductive Reachable (c : TLBConfig) : TLBState → Prop where
  | start : Reachable c (startState c)
  | step_translate (s : TLBState) (va : Nat) (op : Op) (pa : Nat) :
      Reachable c s → Reachable c (tlb_translate c s va op pa).1
  | step_invalidate (s : TLBState) (v : Nat) :
      Reachable c s → Reachable c (tlb_invalidate c s v)

/-! ### Basic list-access lemmas -/

theorem getD_set_self {α : Type} {l : List α} {i : Nat} (e d : α) (h : i < l.length) :
    (l.set i e).getD i d = e := by
  rw [List.getD_eq_getElem _ _ (by simpa using h)]
  exact List.getElem_set_self _

theorem getD_set_ne {α : Type} {l : List α} {i k : Nat} (e d : α) (h : i ≠ k) :
    (l.set i e).getD k d = l.getD k d := by
  by_cases hk : k < l.length
  · rw [List.getD_eq_getElem _ _ (by simpa using hk), List.getD_eq_getElem _ _ hk]
    exact List.getElem_set_ne h _
  · rw [List.getD_eq_default _ _ (by simpa using Nat.le_of_not_lt hk),
      List.getD_eq_default _ _ (Nat.le_of_not_lt hk)]

theorem getD_mem {α : Type} {l : List α} {k : Nat} (d : α) (h : k < l.length) :
    l.getD k d ∈ l := by
  rw [List.getD_eq_getElem _ _ h]
  exact List.getElem_mem h

/-! ### Characterisation of `firstIdx` (the `for`-loop-with-`break` scans) -/

theorem firstIdx_some_spec {p : TLBEntry → Bool} {l : List TLBEntry} {i : Nat}
    (h : firstIdx p l = some i) (d : TLBEntry) :
    i < l.length ∧ p (l.getD i d) = true ∧ ∀ k, k < i → p (l.getD k d) = false := by
  induction l generalizing i with
  | nil => simp [firstIdx] at h
  | cons e rest ih =>
      by_cases hp : p e
      · simp only [firstIdx, hp, if_pos] at h
        cases h
        refine ⟨Nat.succ_pos _, by simpa using hp, ?_⟩
        intro k hk
        exact absurd hk (Nat.not_lt_zero k)
      · simp only [firstIdx, hp, if_neg, Bool.false_eq_true, not_false_iff,
          Option.map_eq_some', ite_false] at h
        obtain ⟨j, hj, rfl⟩ := h
        obtain ⟨h1, h2, h3⟩ := ih hj
        refine ⟨by simpa using Nat.succ_lt_succ h1, by simpa using h2, ?_⟩
        intro k hk
        cases k with
        | zero => simpa using hp
        | succ k => simpa using h3 k (Nat.lt_of_succ_lt_succ hk)

theorem firstIdx_none_spec {p : TLBEntry → Bool} {l : List TLBEntry}
    (h : firstIdx p l = none) (d : TLBEntry) :
    ∀ k, k < l.length → p (l.getD k d) = false := by
  induction l with
  | nil => intro k hk; exact absurd hk (by simp)
  | cons e rest ih =>
      by_cases hp : p e
      · simp [firstIdx, hp] at h
      · simp only [firstIdx, hp, if_neg, Bool.false_eq_true, not_false_iff,
          Option.map_eq_none', ite_false] at h
        intro k hk
        cases k with
        | zero => simpa using hp
        | succ k => simpa using ih h k (by simpa using Nat.lt_of_succ_lt_succ hk)

theorem firstIdx_ne_none {p : TLBEntry → Bool} {l : List TLBEntry} {k : Nat}
    (d : TLBEntry) (hk : k < l.length) (hp : p (l.getD k d) = true) :
    firstIdx p l ≠ none := by
  intro h
  rw [firstIdx_none_spec h d k hk] at hp
  exact Bool.false_ne_true hp

/-! ### Characterisation of the LRU scan and of `find_lru_victim` -/

theorem scan_lru_char (l : List TLBEntry) (i lru oldest : Nat) :
    (scan_lru l i lru oldest = lru ∧
      ∀ k, k < l.length → oldest ≤ (l.getD k zeroEntry).last_access) ∨
    (∃ k, k < l.length ∧ scan_lru l i lru oldest = i + k ∧
      (l.getD k zeroEntry).last_access < oldest ∧
      (∀ m, m < l.length →
        (l.getD k zeroEntry).last_access ≤ (l.getD m zeroEntry).last_access) ∧
      ∀ m, m < k →
        (l.getD k zeroEntry).last_access < (l.getD m zeroEntry).last_access) := by
  induction l generalizing i lru oldest with
  | nil =>
      left
      exact ⟨rfl, fun k hk => absurd hk (by simp)⟩
  | cons e rest ih =>
      by_cases h : e.last_access < oldest
      · right
        rcases ih (i + 1) i e.last_access with ⟨hres, hall⟩ | ⟨k, hk, hres, hlt, hmin, hfirst⟩
        · refine ⟨0, Nat.succ_pos _, ?_, ?_, ?_, ?_⟩
          · simpa [scan_lru, h] using hres
          · simpa using h
          · intro m hm
            cases m with
            | zero => simp
            | succ m => simpa using hall m (Nat.lt_of_succ_lt_succ hm)
          · intro m hm
            exact absurd hm (Nat.not_lt_zero m)
        · refine ⟨k + 1, by simpa using Nat.succ_lt_succ hk, ?_, ?_, ?_, ?_⟩
          · have : scan_lru (e :: rest) i lru oldest = scan_lru rest (i + 1) i e.last_access := by
              simp [scan_lru, h]
            rw [this, hres]
            omega
          · calc (rest.getD k zeroEntry).last_access < e.last_access := hlt
              _ < oldest := h
          · intro m hm
            cases m with
            | zero => simpa using Nat.le_of_lt hlt
            | succ m => simpa using hmin m (Nat.lt_of_succ_lt_succ hm)
          · intro m hm
            cases m with
            | zero => simpa using hlt
            | succ m => simpa using hfirst m (Nat.lt_of_succ_lt_succ hm)
      · have hstep : scan_lru (e :: rest) i lru oldest = scan_lru rest (i + 1) lru oldest := by
          simp [scan_lru, h]
        rcases ih (i + 1) lru oldest with ⟨hres, hall⟩ | ⟨k, hk, hres, hlt, hmin, hfirst⟩
        · left
          refine ⟨by rw [hstep, hres], ?_⟩
          intro m hm
          cases m with
          | zero => simpa using Nat.le_of_not_lt h
          | succ m => simpa using hall m (Nat.lt_of_succ_lt_succ hm)
        · right
          refine ⟨k + 1, by simpa using Nat.succ_lt_succ hk, ?_, by simpa using hlt, ?_, ?_⟩
          · rw [hstep, hres]; omega
          · intro m hm
            cases m with
            | zero =>
                simpa using Nat.le_of_lt (Nat.lt_of_lt_of_le hlt (Nat.le_of_not_lt h))
            | succ m => simpa using hmin m (Nat.lt_of_succ_lt_succ hm)
          · intro m hm
            cases m with
            | zero => simpa using Nat.lt_of_lt_of_le hlt (Nat.le_of_not_lt h)
            | succ m => simpa using hfirst m (Nat.lt_of_succ_lt_succ hm)

theorem find_lru_victim_free {l : List TLBEntry} {i : Nat}
    (h : firstIdx (fun e => !e.valid) l = some i) : find_lru_victim l = i := by
  simp [find_lru_victim, h]

theorem find_lru_victim_lru {l : List TLBEntry}
    (hne : 0 < l.length) (hnone : firstIdx (fun e => !e.valid) l = none) :
    find_lru_victim l < l.length ∧
    (∀ k, k < l.length →
      (l.getD (find_lru_victim l) zeroEntry).last_access ≤
        (l.getD k zeroEntry).last_access) ∧
    ∀ m, m < find_lru_victim l →
      (l.getD (find_lru_victim l) zeroEntry).last_access <
        (l.getD m zeroEntry).last_access := by
  match l, hne with
  | e :: rest, _ =>
    have hdef : find_lru_victim (e :: rest) = scan_lru rest 1 0 e.last_access := by
      simp [find_lru_victim, hnone]
    rcases scan_lru_char rest 1 0 e.last_access with ⟨hres, hall⟩ | ⟨k, hk, hres, hlt, hmin, hfirst⟩
    · rw [hdef, hres]
      refine ⟨Nat.succ_pos _, ?_, ?_⟩
      · intro m hm
        cases m with
        | zero => simp
        | succ m => simpa using hall m (Nat.lt_of_succ_lt_succ hm)
      · intro m hm
        exact absurd hm (Nat.not_lt_zero m)
    · have hres' : find_lru_victim (e :: rest) = k + 1 := by rw [hdef, hres]; omega
      rw [hres']
      refine ⟨by simpa using Nat.succ_lt_succ hk, ?_, ?_⟩
      · intro m hm
        cases m with
        | zero => simpa using Nat.le_of_lt hlt
        | succ m => simpa using hmin m (Nat.lt_of_succ_lt_succ hm)
      · intro m hm
        cases m with
        | zero => simpa using hlt
        | succ m => simpa using hfirst m (Nat.lt_of_succ_lt_succ hm)

theorem find_lru_victim_lt {l : List TLBEntry} (hne : 0 < l.length) :
    find_lru_victim l < l.length := by
  cases h : firstIdx (fun e => !e.valid) l with
  | some i => rw [find_lru_victim_free h]; exact (firstIdx_some_spec h zeroEntry).1
  | none => exact (find_lru_victim_lru hne h).1

theorem find_lru_victim_ne_of_strict_max {l : List TLBEntry} {i : Nat}
    (hi : i < l.length) (hvalid : (l.getD i zeroEntry).valid = true)
    (hmax : ∃ k, k < l.length ∧ k ≠ i ∧
      (l.getD k zeroEntry).last_access < (l.getD i zeroEntry).last_access) :
    find_lru_victim l ≠ i := by
  intro heq
  cases h : firstIdx (fun e => !e.valid) l with
  | some j =>
      rw [find_lru_victim_free h] at heq
      subst heq
      have := (firstIdx_some_spec h zeroEntry).2.1
      rw [hvalid] at this
      simp at this
  | none =>
      obtain ⟨k, hk, hki, hkla⟩ := hmax
      have hmin := (find_lru_victim_lru (Nat.lt_of_le_of_lt (Nat.zero_le i) hi) h).2.1 k hk
      rw [heq] at hmin
      omega

/-! ### Probe lemmas -/

theorem probe_some_match {l : List TLBEntry} {v i : Nat} (h : probe l v = some i) :
    i < l.length ∧ (l.getD i zeroEntry).valid = true ∧
      (l.getD i zeroEntry).virtual_page_number = v := by
  obtain ⟨h1, h2, _⟩ := firstIdx_some_spec h zeroEntry
  refine ⟨h1, ?_, ?_⟩
  · exact (Bool.and_eq_true_iff.mp h2).1
  · simpa using (Bool.and_eq_true_iff.mp h2).2

theorem probe_none_not_match {l : List TLBEntry} {v : Nat} (h : probe l v = none) :
    ∀ k, k < l.length → (l.getD k zeroEntry).valid = true →
      (l.getD k zeroEntry).virtual_page_number ≠ v := by
  intro k hk hval
  have hfalse := firstIdx_none_spec h zeroEntry k hk
  rw [hval] at hfalse
  simpa using hfalse

theorem probe_ne_none {l : List TLBEntry} {v k : Nat} (hk : k < l.length)
    (hval : (l.getD k zeroEntry).valid = true)
    (hvpn : (l.getD k zeroEntry).virtual_page_number = v) :
    probe l v ≠ none := by
  refine firstIdx_ne_none zeroEntry hk ?_
  rw [hval, hvpn]
  simp

/-! ### The reachable-state invariant -/

/-- Every `last_access` timestamp in `l` is at most `n` (the access
counter): timestamps are handed out by `++access_counter`. -/
def entriesBounded (l : List TLBEntry) (n : Nat) : Prop :=
  ∀ e ∈ l, e.last_access ≤ n

/-- At most one valid entry of `l` carries any given virtual page number. -/
def noDupLevel (l : List TLBEntry) : Prop :=
  ∀ i, i < l.length → ∀ j, j < l.length → i ≠ j →
    (l.getD i zeroEntry).valid = true → (l.getD j zeroEntry).valid = true →
    (l.getD i zeroEntry).virtual_page_number ≠ (l.getD j zeroEntry).virtual_page_number

/-- Invariant maintained by every reachable state: the arrays keep their
configured lengths, all timestamps are bounded by the access counter, and
L1 never holds two valid entries for one virtual page number. -/
structure TLBInv (c : TLBConfig) (s : TLBState) : Prop where
  len1 : s.tlb_l1.length = c.TLB_L1_SIZE
  len2 : s.tlb_l2.length = c.TLB_L2_SIZE
  bound1 : entriesBounded s.tlb_l1 s.access_counter
  bound2 : entriesBounded s.tlb_l2 s.access_counter
  nodup1 : noDupLevel s.tlb_l1

theorem entriesBounded_mono {l : List TLBEntry} {n m : Nat}
    (h : entriesBounded l n) (hnm : n ≤ m) : entriesBounded l m :=
  fun e he => Nat.le_trans (h e he) hnm

theorem entriesBounded_set {l : List TLBEntry} {n : Nat} {e : TLBEntry} {i : Nat}
    (h : entriesBounded l n) (he : e.last_access ≤ n) :
    entriesBounded (l.set i e) n := by
  intro a ha
  rcases List.mem_or_eq_of_mem_set ha with h1 | rfl
  · exact h a h1
  · exact he

theorem entriesBounded_getD {l : List TLBEntry} {n : Nat}
    (h : entriesBounded l n) (k : Nat) :
    (l.getD k zeroEntry).last_access ≤ n := by
  by_cases hk : k < l.length
  · exact h _ (getD_mem _ hk)
  · rw [List.getD_eq_default _ _ (Nat.le_of_not_lt hk)]
    exact Nat.zero_le n

theorem noDupLevel_set_same {l : List TLBEntry} {i : Nat} {e : TLBEntry}
    (h : noDupLevel l)
    (hvpn : e.virtual_page_number = (l.getD i zeroEntry).virtual_page_number)
    (hval : e.valid = true → (l.getD i zeroEntry).valid = true) :
    noDupLevel (l.set i e) := by
  intro a ha b hb hab va vb
  rw [List.length_set] at ha hb
  by_cases hia : i = a
  · subst hia
    rw [getD_set_self e zeroEntry ha] at va ⊢
    rw [getD_set_ne e zeroEntry hab] at vb ⊢
    rw [hvpn]
    exact h i ha b hb hab (hval va) vb
  · rw [getD_set_ne e zeroEntry hia] at va ⊢
    by_cases hib : i = b
    · subst hib
      rw [getD_set_self e zeroEntry hb] at vb ⊢
      rw [hvpn]
      exact h a ha i hb hab va (hval vb)
    · rw [getD_set_ne e zeroEntry hib] at vb ⊢
      exact h a ha b hb hab va vb

theorem noDupLevel_set_fresh {l : List TLBEntry} {i : Nat} {e : TLBEntry}
    (h : noDupLevel l)
    (hfresh : ∀ k, k < l.length → (l.getD k zeroEntry).valid = true →
      (l.getD k zeroEntry).virtual_page_number ≠ e.virtual_page_number) :
    noDupLevel (l.set i e) := by
  intro a ha b hb hab va vb
  rw [List.length_set] at ha hb
  by_cases hia : i = a
  · subst hia
    rw [getD_set_self e zeroEntry ha] at va ⊢
    rw [getD_set_ne e zeroEntry hab] at vb ⊢
    exact fun heq => hfresh b hb vb heq.symm
  · rw [getD_set_ne e zeroEntry hia] at va ⊢
    by_cases hib : i = b
    · subst hib
      rw [getD_set_self e zeroEntry hb] at vb ⊢
      exact hfresh a ha va
    · rw [getD_set_ne e zeroEntry hib] at vb ⊢
      exact h a ha b hb hab va vb

/-! ### The demotion slot never destroys the L2 hit entry (for L2 size at
least 2 and bounded timestamps: the freshly refreshed hit slot holds the
strictly largest timestamp, so it is never the LRU victim). -/

theorem demotionSlot_ne {s : TLBState} {i : Nat} (op : Op)
    (hlen2 : 2 ≤ s.tlb_l2.length) (hi : i < s.tlb_l2.length)
    (hvalid : (s.tlb_l2.getD i zeroEntry).valid = true)
    (hbound2 : entriesBounded s.tlb_l2 s.access_counter) :
    demotionSlot s i op ≠ i := by
  have hp0 : find_lru_victim (s.tlb_l2.set i
      { s.tlb_l2.getD i zeroEntry with
        last_access := s.access_counter + 1
        dirty := if op.isWrite then true
          else (s.tlb_l2.getD i zeroEntry).dirty }) ≠ i := by
    apply find_lru_victim_ne_of_strict_max
    · rw [List.length_set]
      exact hi
    · rw [getD_set_self _ _ hi]
      exact hvalid
    · refine ⟨if i = 0 then 1 else 0, ?_, ?_, ?_⟩
      · rw [List.length_set]
        by_cases h0 : i = 0 <;> simp [h0] <;> omega
      · by_cases h0 : i = 0 <;> simp [h0]
        omega
      · rw [getD_set_self _ _ hi,
          getD_set_ne _ _ (by by_cases h0 : i = 0 <;> simp [h0] <;> omega)]
        have := entriesBounded_getD hbound2 (if i = 0 then 1 else 0)
        simp only []
        omega
  simp only [demotionSlot]
  rw [if_neg hp0]
  exact hp0

/-! ### Preservation of the invariant by each operation -/

theorem tlbInv_l1HitStep {c : TLBConfig} {s : TLBState} (hInv : TLBInv c s)
    {i : Nat} (hi : i < s.tlb_l1.length) (op : Op) (off : Nat) :
    TLBInv c (l1HitStep c s i op off).1 := by
  obtain ⟨len1, len2, b1, b2, nd1⟩ := hInv
  refine ⟨?_, ?_, ?_, ?_, ?_⟩ <;> simp only [l1HitStep]
  · rw [List.length_set]
    exact len1
  · exact len2
  · exact entriesBounded_set (entriesBounded_mono b1 (Nat.le_succ _)) (Nat.le_refl _)
  · exact entriesBounded_mono b2 (Nat.le_succ _)
  · exact noDupLevel_set_same nd1 rfl (fun h => h)
theorem tlbInv_l2HitStep {c : TLBConfig} {s : TLBState} (hInv : TLBInv c s)
    {i : Nat} (hi : i < s.tlb_l2.length)
    (hfresh : ∀ k, k < s.tlb_l1.length → (s.tlb_l1.getD k zeroEntry).valid = true →
      (s.tlb_l1.getD k zeroEntry).virtual_page_number ≠
        (s.tlb_l2.getD i zeroEntry).virtual_page_number)
    (op : Op) (off : Nat) :
    TLBInv c (l2HitStep c s i op off).1 := by
  obtain ⟨len1, len2, b1, b2, nd1⟩ := hInv
  simp only [l2HitStep]
  set n := s.access_counter + 1 with hn
  set e2 : TLBEntry :=
    { s.tlb_l2.getD i zeroEntry with
      last_access := n
      dirty := if op.isWrite then true else (s.tlb_l2.getD i zeroEntry).dirty } with he2
  set lp := find_lru_victim s.tlb_l1 with hlp
  set victim := s.tlb_l1.getD lp zeroEntry with hvic
  set D := demotionSlot s i op with hD
  set l2b := if victim.valid && victim.dirty then (s.tlb_l2.set i e2).set D victim
    else s.tlb_l2.set i e2 with hl2b
  have hl2b_len : l2b.length = s.tlb_l2.length := by
    rw [hl2b]; split <;> simp [List.length_set]
  have hl2b_bound : entriesBounded l2b n := by
    rw [hl2b]
    have hset : entriesBounded (s.tlb_l2.set i e2) n :=
      entriesBounded_set (entriesBounded_mono b2 (Nat.le_succ _)) (Nat.le_refl _)
    split
    · exact entriesBounded_set hset
        (Nat.le_trans (entriesBounded_getD b1 lp) (Nat.le_succ _))
    · exact hset
  have hprom_la : (l2b.getD i zeroEntry).last_access ≤ n := entriesBounded_getD hl2b_bound i
  constructor
  · rw [List.length_set]; exact len1
  · rw [List.length_set, hl2b_len]; exact len2
  · exact entriesBounded_set (entriesBounded_mono b1 (Nat.le_succ _)) hprom_la
  · exact entriesBounded_set hl2b_bound (Nat.le_refl _)
  · by_cases hvd : victim.valid && victim.dirty
    · by_cases hDi : D = i
      · have hpro : l2b.getD i zeroEntry = victim := by
          rw [hl2b, if_pos hvd, hDi, getD_set_self]
          rw [List.length_set]; exact hi
        rw [hpro]
        exact noDupLevel_set_same nd1 rfl (fun h => h)
      · have hpro : l2b.getD i zeroEntry = e2 := by
          rw [hl2b, if_pos hvd, getD_set_ne _ _ hDi, getD_set_self _ _ hi]
        rw [hpro]
        refine noDupLevel_set_fresh nd1 ?_
        intro k hk hv
        exact hfresh k hk hv
    · have hpro : l2b.getD i zeroEntry = e2 := by
        rw [hl2b, if_neg hvd, getD_set_self _ _ hi]
      rw [hpro]
      refine noDupLevel_set_fresh nd1 ?_
      intro k hk hv
      exact hfresh k hk hv

theorem tlbInv_missFillStep {c : TLBConfig} {s : TLBState} (hInv : TLBInv c s)
    {vpn : Nat}
    (hfresh : ∀ k, k < s.tlb_l1.length → (s.tlb_l1.getD k zeroEntry).valid = true →
      (s.tlb_l1.getD k zeroEntry).virtual_page_number ≠ vpn)
    (op : Op) (pa : Nat) :
    TLBInv c (missFillStep c s vpn op pa).1 := by
  obtain ⟨len1, len2, b1, b2, nd1⟩ := hInv
  constructor
  · simp only [missFillStep]
    rw [List.length_set]; exact len1
  · simp only [missFillStep]
    rw [List.length_set]; exact len2
  · simp only [missFillStep]
    exact entriesBounded_set
      (entriesBounded_mono b1 (Nat.le_trans (Nat.le_succ _) (Nat.le_succ _)))
      (Nat.le_refl _)
  · simp only [missFillStep]
    exact entriesBounded_set
      (entriesBounded_mono b2 (Nat.le_trans (Nat.le_succ _) (Nat.le_succ _)))
      (Nat.le_succ _)
  · simp only [missFillStep]
    refine noDupLevel_set_fresh nd1 ?_
    intro k hk hv
    exact hfresh k hk hv

theorem tlbInv_invalidate {c : TLBConfig} {s : TLBState} (hInv : TLBInv c s)
    (v : Nat) : TLBInv c (tlb_invalidate c s v) := by
  obtain ⟨len1, len2, b1, b2, nd1⟩ := hInv
  simp only [tlb_invalidate]
  cases h1 : probe s.tlb_l1 v with
  | none =>
      cases h2 : probe s.tlb_l2 v with
      | none => exact ⟨len1, len2, b1, b2, nd1⟩
      | some j =>
          refine ⟨len1, ?_, b1, ?_, nd1⟩
          · rw [List.length_set]; exact len2
          · exact entriesBounded_set b2 (entriesBounded_getD b2 j)
  | some i =>
      have hnd1 : noDupLevel (s.tlb_l1.set i
          { s.tlb_l1.getD i zeroEntry with valid := false }) :=
        noDupLevel_set_same nd1 rfl (fun h => by exact absurd h (by simp))
      have hb1 : entriesBounded (s.tlb_l1.set i
          { s.tlb_l1.getD i zeroEntry with valid := false }) s.access_counter :=
        entriesBounded_set b1 (entriesBounded_getD b1 i)
      cases h2 : probe s.tlb_l2 v with
      | none =>
          refine ⟨?_, len2, hb1, b2, hnd1⟩
          rw [List.length_set]; exact len1
      | some j =>
          refine ⟨?_, ?_, hb1, ?_, hnd1⟩
          · rw [List.length_set]; exact len1
          · rw [List.length_set]; exact len2
          · exact entriesBounded_set b2 (entriesBounded_getD b2 j)

theorem tlbInv_startState (c : TLBConfig) : TLBInv c (startState c) := by
  constructor
  · exact List.length_replicate _ _
  · exact List.length_replicate _ _
  · intro e he
    rw [List.eq_of_mem_replicate he]
    exact Nat.le_refl 0
  · intro e he
    rw [List.eq_of_mem_replicate he]
    exact Nat.le_refl 0
  · intro a ha b hb hab va _
    exfalso
    simp only [startState] at va ha
    rw [List.length_replicate] at ha
    rw [List.getD_eq_getElem _ _ (by rw [List.length_replicate]; exact ha),
      List.getElem_replicate] at va
    simp [zeroEntry] at va

theorem tlbInv_translate {c : TLBConfig} {s : TLBState} (hInv : TLBInv c s)
    (va : Nat) (op : Op) (pa : Nat) :
    TLBInv c (tlb_translate c s va op pa).1 := by
  simp only [tlb_translate]
  cases h1 : probe s.tlb_l1 (va >>> c.PAGE_SIZE_BITS) with
  | some i => exact tlbInv_l1HitStep hInv (probe_some_match h1).1 op _
  | none =>
      have hInv1 : TLBInv c { s with tlb_l1_misses := s.tlb_l1_misses + 1 } :=
        ⟨hInv.len1, hInv.len2, hInv.bound1, hInv.bound2, hInv.nodup1⟩
      cases h2 : probe s.tlb_l2 (va >>> c.PAGE_SIZE_BITS) with
      | some i =>
          refine tlbInv_l2HitStep hInv1 (probe_some_match h2).1 ?_ op _
          intro k hk hv heq
          refine probe_none_not_match h1 k hk hv ?_
          rw [heq]
          exact (probe_some_match h2).2.2
      | none =>
          have hInv2 : TLBInv c { s with
              tlb_l1_misses := s.tlb_l1_misses + 1
              tlb_l2_misses := s.tlb_l2_misses + 1 } :=
            ⟨hInv.len1, hInv.len2, hInv.bound1, hInv.bound2, hInv.nodup1⟩
          refine tlbInv_missFillStep hInv2 ?_ op pa
          intro k hk hv
          exact probe_none_not_match h1 k hk hv

theorem tlbInv_reachable {c : TLBConfig} {s : TLBState} (h : Reachable c s) :
    TLBInv c s := by
  induction h with
  | start => exact tlbInv_startState c
  | step_translate s va op pa _ ih => exact tlbInv_translate ih va op pa
  | step_invalidate s v _ ih => exact tlbInv_invalidate ih v

/-! ### Running call traces (for exhibiting concrete reachable states) -/

/-- A call event: a translate (with the page-table result it would obtain
on a full miss) or an invalidate. -/
inductive TLBEvent where
  | translateEv (va : Nat) (op : Op) (pa : Nat) : TLBEvent
  | invalidateEv (v : Nat) : TLBEvent

def runEvents (c : TLBConfig) (s : TLBState) : List TLBEvent → TLBState
  | [] => s
  | .translateEv va op pa :: rest => runEvents c (tlb_translate c s va op pa).1 rest
  | .invalidateEv v :: rest => runEvents c (tlb_invalidate c s v) rest

theorem reachable_runEvents (c : TLBConfig) {s : TLBState} (h : Reachable c s)
    (evs : List TLBEvent) : Reachable c (runEvents c s evs) := by
  induction evs generalizing s with
  | nil => exact h
  | cons ev rest ih =>
      cases ev with
      | translateEv va op pa => exact ih (Reachable.step_translate s va op pa h)
      | invalidateEv v => exact ih (Reachable.step_invalidate s v h)

/-- The spec's example configuration: `L1_SIZE = 2`, `L2_SIZE = 4`,
`page_bits = 12`. -/
def cEx : TLBConfig := ⟨2, 4, 12⟩

/-- Fill A, B, C, D (evicting A then B from L1 without write-back), dirty
both L1 residents C and D, then touch A again: the L2 hit on A promotes A
and demotes the dirty L1 copy of C into the L2 LRU slot — next to the L2
copy of C that is still there. -/
def dupTrace : List TLBEvent :=
  [.translateEv 0x1000 .OP_WRITE 0x1000, .translateEv 0x2000 .OP_READ 0x2000,
   .translateEv 0x3000 .OP_READ 0x3000, .translateEv 0x4000 .OP_READ 0x4000,
   .translateEv 0x3000 .OP_WRITE 0, .translateEv 0x4000 .OP_WRITE 0,
   .translateEv 0x1000 .OP_READ 0]

/-- The state reached by `dupTrace`: its L2 holds VPN 3 in two valid slots. -/
def sDup : TLBState := runEvents cEx (startState cEx) dupTrace

theorem sDup_reachable : Reachable cEx sDup :=
  reachable_runEvents cEx Reachable.start dupTrace

/-- State after a single miss-fill of VPN 1 from the start state. -/
def sOne : TLBState :=
  runEvents cEx (startState cEx) [.translateEv 0x1000 .OP_READ 0x1000]

theorem sOne_reachable : Reachable cEx sOne :=
  reachable_runEvents cEx Reachable.start [.translateEv 0x1000 .OP_READ 0x1000]

/-! ### Decidability of the duplicate-freedom predicates (used to check
concrete states) -/

/-- At most one valid entry of `l` carries the specific virtual page
number `v`. -/
def atMostOneValidVpn (l : List TLBEntry) (v : Nat) : Prop :=
  ∀ i, i < l.length → ∀ j, j < l.length →
    (l.getD i zeroEntry).valid = true → (l.getD i zeroEntry).virtual_page_number = v →
    (l.getD j zeroEntry).valid = true → (l.getD j zeroEntry).virtual_page_number = v →
    i = j

instance (l : List TLBEntry) : Decidable (noDupLevel l) := by
  unfold noDupLevel
  exact @Nat.decidableBallLT _ _
    (fun i hi => @Nat.decidableBallLT _ _ (fun j hj => inferInstance))

instance (l : List TLBEntry) (v : Nat) : Decidable (atMostOneValidVpn l v) := by
  unfold atMostOneValidVpn
  exact @Nat.decidableBallLT _ _
    (fun i hi => @Nat.decidableBallLT _ _ (fun j hj => inferInstance))

theorem noDupLevel_atMostOne {l : List TLBEntry} (h : noDupLevel l) (v : Nat) :
    atMostOneValidVpn l v := by
  intro i hi j hj hvi hpi hvj hpj
  by_contra hne
  exact h i hi j hj hne hvi hvj (by rw [hpi, hpj])

/-! ### Claim C7 -/

/-- C7 (counterexample): `tlb_init` does not reset the static
`access_counter`.  After one translate from the start state the counter is
2, and calling `tlb_init` from that reachable state leaves it at 2 — not
zero, contrary to the claim that init zeroes it regardless of the prior
state. -/
theorem C7_counterexample :
    Reachable cEx sOne ∧ sOne.access_counter = 2 ∧
    (tlb_init cEx sOne).access_counter = 2 ∧
    ¬(tlb_init cEx sOne).access_counter = 0 :=
  ⟨sOne_reachable, by decide, by decide, by decide⟩

/-- C7 (amended): immediately after `tlb_init` both levels hold only the
all-zero invalid entry and the six statistics counters are zero, but the
global access counter is left unchanged by `tlb_init`; it is zero only at
process start. -/
theorem C7_init_state (c : TLBConfig) (s : TLBState) :
    (tlb_init c s).tlb_l1 = List.replicate c.TLB_L1_SIZE zeroEntry ∧
    (tlb_init c s).tlb_l2 = List.replicate c.TLB_L2_SIZE zeroEntry ∧
    (tlb_init c s).tlb_l1_hits = 0 ∧ (tlb_init c s).tlb_l1_misses = 0 ∧
    (tlb_init c s).tlb_l1_invalidations = 0 ∧ (tlb_init c s).tlb_l2_hits = 0 ∧
    (tlb_init c s).tlb_l2_misses = 0 ∧ (tlb_init c s).tlb_l2_invalidations = 0 ∧
    (tlb_init c s).access_counter = s.access_counter ∧
    (startState c).access_counter = 0 :=
  ⟨rfl, rfl, rfl, rfl, rfl, rfl, rfl, rfl, rfl, rfl⟩

/-! ### Claim C3 -/

/-- C3 (code evaluated at the failing input): in the miss-fill from the
start state, the entry inserted into L2 slot 0 receives `last_access = 1`
while the entry inserted into L1 slot 0 receives `last_access = 2` — the
counter is incremented a second time for the L1 insertion, so the two
insertions do NOT share one counter value, contradicting the claim and
the code's own comment (`// Mesmo timestamp da L2`). -/
theorem C3_fill_timestamps_differ :
    ((tlb_translate cEx (startState cEx) 0x1000 Op.OP_READ 0x1000).1.tlb_l2.getD 0
      zeroEntry).last_access = 1 ∧
    ((tlb_translate cEx (startState cEx) 0x1000 Op.OP_READ 0x1000).1.tlb_l1.getD 0
      zeroEntry).last_access = 2 := by
  constructor <;> decide

/-! ### Claim C5 -/

/-- C5: for every array content, the victim selector returns the first
(lowest-index) invalid slot when one exists; otherwise (all slots valid)
it returns the slot with the smallest `last_access`, breaking ties by the
lowest index. -/
theorem C5_find_lru_victim_spec (l : List TLBEntry) (hne : l ≠ []) :
    ((∃ k, k < l.length ∧ (l.getD k zeroEntry).valid = false) →
      find_lru_victim l < l.length ∧
      (l.getD (find_lru_victim l) zeroEntry).valid = false ∧
      ∀ k, k < find_lru_victim l → (l.getD k zeroEntry).valid = true) ∧
    ((∀ k, k < l.length → (l.getD k zeroEntry).valid = true) →
      find_lru_victim l < l.length ∧
      (∀ k, k < l.length →
        (l.getD (find_lru_victim l) zeroEntry).last_access ≤
          (l.getD k zeroEntry).last_access) ∧
      ∀ m, m < find_lru_victim l →
        (l.getD (find_lru_victim l) zeroEntry).last_access <
          (l.getD m zeroEntry).last_access) := by
  constructor
  · rintro ⟨k, hk, hkv⟩
    cases h : firstIdx (fun e => !e.valid) l with
    | none =>
        exfalso
        have hfalse := firstIdx_none_spec h zeroEntry k hk
        rw [hkv] at hfalse
        simp at hfalse
    | some i =>
        obtain ⟨h1, h2, h3⟩ := firstIdx_some_spec h zeroEntry
        rw [find_lru_victim_free h]
        refine ⟨h1, by simpa using h2, ?_⟩
        intro m hm
        simpa using h3 m hm
  · intro hall
    have hnone : firstIdx (fun e => !e.valid) l = none := by
      cases h : firstIdx (fun e => !e.valid) l with
      | none => rfl
      | some i =>
          obtain ⟨h1, h2, _⟩ := firstIdx_some_spec h zeroEntry
          rw [hall i h1] at h2
          simp at h2
    have hpos : 0 < l.length := by
      cases l with
      | nil => exact absurd rfl hne
      | cons a t => simp
    exact find_lru_victim_lru hpos hnone

/-- A level content with all slots valid: the minimal `last_access` 3 is
attained at indices 1 and 2, so the victim must be index 1. -/
def victimExample : List TLBEntry :=
  [⟨true, false, 5, 1, 1⟩, ⟨true, false, 3, 2, 2⟩, ⟨true, true, 3, 9, 9⟩]

/-- Witness for C5 at a concrete array. -/
theorem C5_find_lru_victim_spec_witness :
    victimExample ≠ [] ∧ (∀ k, k < victimExample.length →
      (victimExample.getD k zeroEntry).valid = true) ∧
    find_lru_victim victimExample < victimExample.length ∧
    (∀ k, k < victimExample.length →
      (victimExample.getD (find_lru_victim victimExample) zeroEntry).last_access ≤
        (victimExample.getD k zeroEntry).last_access) ∧
    ∀ m, m < find_lru_victim victimExample →
      (victimExample.getD (find_lru_victim victimExample) zeroEntry).last_access <
        (victimExample.getD m zeroEntry).last_access := by
  refine ⟨by decide, by decide, ?_⟩
  exact (C5_find_lru_victim_spec victimExample (by decide)).2 (by decide)

/-! ### Claim C10 -/

/-- Frame facts about invalidating the first probe match within one level:
non-matching slots are untouched, a changed slot is the probe match with
only its valid flag cleared, and at most one slot changes. -/
theorem set_invalid_frame (l : List TLBEntry) (v : Nat) {i : Nat}
    (hp : probe l v = some i) :
    (∀ k, ¬((l.getD k zeroEntry).valid = true ∧
        (l.getD k zeroEntry).virtual_page_number = v) →
      (l.set i { l.getD i zeroEntry with valid := false }).getD k zeroEntry =
        l.getD k zeroEntry) ∧
    (∀ k, (l.set i { l.getD i zeroEntry with valid := false }).getD k zeroEntry ≠
        l.getD k zeroEntry →
      (l.getD k zeroEntry).valid = true ∧
      (l.getD k zeroEntry).virtual_page_number = v ∧
      (l.set i { l.getD i zeroEntry with valid := false }).getD k zeroEntry =
        { l.getD k zeroEntry with valid := false }) ∧
    (∀ k m, (l.set i { l.getD i zeroEntry with valid := false }).getD k zeroEntry ≠
        l.getD k zeroEntry →
      (l.set i { l.getD i zeroEntry with valid := false }).getD m zeroEntry ≠
        l.getD m zeroEntry → k = m) := by
  obtain ⟨hi, hvi, hpi⟩ := probe_some_match hp
  have hchange : ∀ k, (l.set i { l.getD i zeroEntry with valid := false }).getD k zeroEntry ≠
      l.getD k zeroEntry → k = i := by
    intro k hk
    by_contra hki
    exact hk (getD_set_ne _ _ (fun h => hki h.symm))
  refine ⟨?_, ?_, ?_⟩
  · intro k hk
    by_cases hik : i = k
    · subst hik
      exact absurd ⟨hvi, hpi⟩ hk
    · exact getD_set_ne _ _ hik
  · intro k hk
    have hki := hchange k hk
    subst hki
    exact ⟨hvi, hpi, getD_set_self _ _ hi⟩
  · intro k m hk hm
    rw [hchange k hk, hchange m hm]

/-- C10: `tlb_invalidate` leaves the hit/miss counters and the access
counter unchanged, leaves every non-matching or invalid slot untouched,
and in each level flips at most one slot — the probe match — clearing only
its valid flag and preserving all other fields. -/
theorem C10_invalidate_frame (c : TLBConfig) (s : TLBState) (v : Nat) :
    (tlb_invalidate c s v).tlb_l1_hits = s.tlb_l1_hits ∧
    (tlb_invalidate c s v).tlb_l1_misses = s.tlb_l1_misses ∧
    (tlb_invalidate c s v).tlb_l2_hits = s.tlb_l2_hits ∧
    (tlb_invalidate c s v).tlb_l2_misses = s.tlb_l2_misses ∧
    (tlb_invalidate c s v).access_counter = s.access_counter ∧
    (∀ k, ¬((s.tlb_l1.getD k zeroEntry).valid = true ∧
        (s.tlb_l1.getD k zeroEntry).virtual_page_number = v) →
      (tlb_invalidate c s v).tlb_l1.getD k zeroEntry = s.tlb_l1.getD k zeroEntry) ∧
    (∀ k, (tlb_invalidate c s v).tlb_l1.getD k zeroEntry ≠ s.tlb_l1.getD k zeroEntry →
      (s.tlb_l1.getD k zeroEntry).valid = true ∧
      (s.tlb_l1.getD k zeroEntry).virtual_page_number = v ∧
      (tlb_invalidate c s v).tlb_l1.getD k zeroEntry =
        { s.tlb_l1.getD k zeroEntry with valid := false }) ∧
    (∀ k m, (tlb_invalidate c s v).tlb_l1.getD k zeroEntry ≠ s.tlb_l1.getD k zeroEntry →
      (tlb_invalidate c s v).tlb_l1.getD m zeroEntry ≠ s.tlb_l1.getD m zeroEntry →
      k = m) ∧
    (∀ k, ¬((s.tlb_l2.getD k zeroEntry).valid = true ∧
        (s.tlb_l2.getD k zeroEntry).virtual_page_number = v) →
      (tlb_invalidate c s v).tlb_l2.getD k zeroEntry = s.tlb_l2.getD k zeroEntry) ∧
    (∀ k, (tlb_invalidate c s v).tlb_l2.getD k zeroEntry ≠ s.tlb_l2.getD k zeroEntry →
      (s.tlb_l2.getD k zeroEntry).valid = true ∧
      (s.tlb_l2.getD k zeroEntry).virtual_page_number = v ∧
      (tlb_invalidate c s v).tlb_l2.getD k zeroEntry =
        { s.tlb_l2.getD k zeroEntry with valid := false }) ∧
    (∀ k m, (tlb_invalidate c s v).tlb_l2.getD k zeroEntry ≠ s.tlb_l2.getD k zeroEntry →
      (tlb_invalidate c s v).tlb_l2.getD m zeroEntry ≠ s.tlb_l2.getD m zeroEntry →
      k = m) := by
  simp only [tlb_invalidate]
  cases h1 : probe s.tlb_l1 v with
  | none =>
      cases h2 : probe s.tlb_l2 v with
      | none =>
          exact ⟨rfl, rfl, rfl, rfl, rfl, fun k _ => rfl, fun k hk => absurd rfl hk,
            fun k m hk _ => absurd rfl hk, fun k _ => rfl, fun k hk => absurd rfl hk,
            fun k m hk _ => absurd rfl hk⟩
      | some j =>
          obtain ⟨hf, hc, hu⟩ := set_invalid_frame s.tlb_l2 v h2
          exact ⟨rfl, rfl, rfl, rfl, rfl, fun k _ => rfl, fun k hk => absurd rfl hk,
            fun k m hk _ => absurd rfl hk, hf, hc, hu⟩
  | some i =>
      obtain ⟨hf1, hc1, hu1⟩ := set_invalid_frame s.tlb_l1 v h1
      cases h2 : probe s.tlb_l2 v with
      | none =>
          exact ⟨rfl, rfl, rfl, rfl, rfl, hf1, hc1, hu1, fun k _ => rfl,
            fun k hk => absurd rfl hk, fun k m hk _ => absurd rfl hk⟩
      | some j =>
          obtain ⟨hf, hc, hu⟩ := set_invalid_frame s.tlb_l2 v h2
          exact ⟨rfl, rfl, rfl, rfl, rfl, hf1, hc1, hu1, hf, hc, hu⟩

/-- C4: `write_back_tlb_entry` fires exactly where claimed. -/
theorem C4_write_back_exactly :
    (∀ (c : TLBConfig) (s : TLBState) (va : Nat) (op : Op) (pa : Nat),
      (tlb_translate c s va op pa).1.write_backs =
        if probe s.tlb_l1 (va >>> c.PAGE_SIZE_BITS) = none ∧
            probe s.tlb_l2 (va >>> c.PAGE_SIZE_BITS) = none ∧
            ((s.tlb_l2.getD (find_lru_victim s.tlb_l2) zeroEntry).valid &&
              (s.tlb_l2.getD (find_lru_victim s.tlb_l2) zeroEntry).dirty) = true
        then s.write_backs ++
          [(s.tlb_l2.getD (find_lru_victim s.tlb_l2) zeroEntry).physical_page_number <<<
            c.PAGE_SIZE_BITS]
        else s.write_backs) ∧
    (∀ (c : TLBConfig) (s : TLBState) (v : Nat),
      (tlb_invalidate c s v).write_backs =
        match probe s.tlb_l2 v with
        | some j =>
            if (s.tlb_l2.getD j zeroEntry).dirty = true
            then s.write_backs ++
              [(s.tlb_l2.getD j zeroEntry).physical_page_number <<< c.PAGE_SIZE_BITS]
            else s.write_backs
        | none => s.write_backs) := by
  constructor
  · intro c s va op pa
    simp only [tlb_translate]
    cases h1 : probe s.tlb_l1 (va >>> c.PAGE_SIZE_BITS) with
    | some i =>
        rw [if_neg (by simp [h1])]
        rfl
    | none =>
        cases h2 : probe s.tlb_l2 (va >>> c.PAGE_SIZE_BITS) with
        | some i =>
            rw [if_neg (by simp [h2])]
            rfl
        | none =>
            simp only [missFillStep]
            by_cases hvd : ((s.tlb_l2.getD (find_lru_victim s.tlb_l2) zeroEntry).valid &&
                (s.tlb_l2.getD (find_lru_victim s.tlb_l2) zeroEntry).dirty) = true
            · simp [hvd]
            · simp [hvd]
  · intro c s v
    simp only [tlb_invalidate]
    cases h1 : probe s.tlb_l1 v with
    | none =>
        cases h2 : probe s.tlb_l2 v with
        | none => rfl
        | some j =>
            by_cases hd : (s.tlb_l2.getD j zeroEntry).dirty = true
            · simp [hd]
            · simp [hd]
    | some i =>
        cases h2 : probe s.tlb_l2 v with
        | none => rfl
        | some j =>
            by_cases hd : (s.tlb_l2.getD j zeroEntry).dirty = true
            · simp [hd]
            · simp [hd]

/-- When the demotion slot avoids the hit slot `i` (always the case in
reachable states with at least two L2 slots), the L2-hit branch promotes
exactly the refreshed hit entry into the L1 victim slot and returns the
physical address rebuilt from the hit entry. -/
theorem l2HitStep_promoted (c : TLBConfig) {s : TLBState} {i : Nat} (op : Op) (off : Nat)
    (hne : demotionSlot s i op ≠ i) (hi : i < s.tlb_l2.length) :
    (l2HitStep c s i op off).1.tlb_l1 =
      s.tlb_l1.set (find_lru_victim s.tlb_l1)
        { s.tlb_l2.getD i zeroEntry with
          last_access := s.access_counter + 1
          dirty := if op.isWrite then true else (s.tlb_l2.getD i zeroEntry).dirty } ∧
    (l2HitStep c s i op off).1.tlb_l2.getD i zeroEntry =
      { s.tlb_l2.getD i zeroEntry with
        last_access := s.access_counter + 1
        dirty := if op.isWrite then true else (s.tlb_l2.getD i zeroEntry).dirty } ∧
    (l2HitStep c s i op off).1.tlb_l2.length = s.tlb_l2.length ∧
    (l2HitStep c s i op off).2 =
      ((s.tlb_l2.getD i zeroEntry).physical_page_number <<< c.PAGE_SIZE_BITS) ||| off := by
  refine ⟨?_, ?_, ?_, ?_⟩
  · simp only [l2HitStep]
    congr 1
    split
    · rw [getD_set_ne _ _ hne, getD_set_self _ _ hi]
    · rw [getD_set_self _ _ hi]
  · simp only [l2HitStep]
    split
    · rw [getD_set_self _ _
        (by rw [List.length_set, List.length_set]; exact hi),
        getD_set_ne _ _ hne, getD_set_self _ _ hi]
    · rw [getD_set_self _ _ (by rw [List.length_set]; exact hi),
        getD_set_self _ _ hi]
  · simp only [l2HitStep]
    split <;> simp [List.length_set]
  · simp only [l2HitStep]
    split
    · rw [getD_set_self _ _
        (by rw [List.length_set, List.length_set]; exact hi),
        getD_set_ne _ _ hne, getD_set_self _ _ hi]
    · rw [getD_set_self _ _ (by rw [List.length_set]; exact hi),
        getD_set_self _ _ hi]

/-! ### Claim C6 -/

/-- C6: for reachable states (with at least one L1 slot and two L2 slots),
when translate misses L1 and hits L2 at slot `i`, the demotion slot for a
valid-and-dirty L1 victim differs from `i`, and afterwards the hit virtual
page number is valid in L1. -/
theorem C6_promotion_preserves_hit {c : TLBConfig} {s : TLBState} (h : Reachable c s)
    (hl1 : 1 ≤ c.TLB_L1_SIZE) (hl2 : 2 ≤ c.TLB_L2_SIZE)
    (va : Nat) (op : Op) (pa : Nat) {i : Nat}
    (hmiss1 : probe s.tlb_l1 (va >>> c.PAGE_SIZE_BITS) = none)
    (hhit2 : probe s.tlb_l2 (va >>> c.PAGE_SIZE_BITS) = some i) :
    demotionSlot s i op ≠ i ∧
    ∃ k, k < (tlb_translate c s va op pa).1.tlb_l1.length ∧
      ((tlb_translate c s va op pa).1.tlb_l1.getD k zeroEntry).valid = true ∧
      ((tlb_translate c s va op pa).1.tlb_l1.getD k zeroEntry).virtual_page_number =
        va >>> c.PAGE_SIZE_BITS := by
  have hInv := tlbInv_reachable h
  obtain ⟨hi2, hvalid, hvpn⟩ := probe_some_match hhit2
  have hne : demotionSlot s i op ≠ i :=
    demotionSlot_ne op (by rw [hInv.len2]; exact hl2) hi2 hvalid hInv.bound2
  refine ⟨hne, ?_⟩
  have htr : (tlb_translate c s va op pa).1 =
      (l2HitStep c { s with tlb_l1_misses := s.tlb_l1_misses + 1 } i op
        (va &&& (1 <<< c.PAGE_SIZE_BITS - 1))).1 := by
    simp only [tlb_translate, hmiss1, hhit2]
  have hout := (l2HitStep_promoted c (s := { s with tlb_l1_misses := s.tlb_l1_misses + 1 })
    op (va &&& (1 <<< c.PAGE_SIZE_BITS - 1)) hne hi2).1
  rw [htr, hout]
  refine ⟨find_lru_victim s.tlb_l1, ?_, ?_, ?_⟩
  · rw [List.length_set]
    exact find_lru_victim_lt (by rw [hInv.len1]; omega)
  · rw [getD_set_self _ _ (find_lru_victim_lt (by rw [hInv.len1]; omega))]
    exact hvalid
  · rw [getD_set_self _ _ (find_lru_victim_lt (by rw [hInv.len1]; omega))]
    exact hvpn

/-! ### Claim C8 -/

/-- C8: a hit returns `(ppn <<< page_bits) ||| (va &&& page_mask)` where
`ppn` comes from the entry that produced the hit, in either level. -/
theorem C8_hit_result {c : TLBConfig} {s : TLBState} (h : Reachable c s)
    (hl2 : 2 ≤ c.TLB_L2_SIZE) (va : Nat) (op : Op) (pa : Nat) :
    (∀ i, probe s.tlb_l1 (va >>> c.PAGE_SIZE_BITS) = some i →
      (tlb_translate c s va op pa).2 =
        ((s.tlb_l1.getD i zeroEntry).physical_page_number <<< c.PAGE_SIZE_BITS) |||
          (va &&& (1 <<< c.PAGE_SIZE_BITS - 1))) ∧
    (probe s.tlb_l1 (va >>> c.PAGE_SIZE_BITS) = none →
      ∀ i, probe s.tlb_l2 (va >>> c.PAGE_SIZE_BITS) = some i →
        (tlb_translate c s va op pa).2 =
          ((s.tlb_l2.getD i zeroEntry).physical_page_number <<< c.PAGE_SIZE_BITS) |||
            (va &&& (1 <<< c.PAGE_SIZE_BITS - 1))) := by
  constructor
  · intro i hp
    simp only [tlb_translate, hp]
    rfl
  · intro hp1 i hp2
    have hInv := tlbInv_reachable h
    obtain ⟨hi2, hvalid, _⟩ := probe_some_match hp2
    have hne : demotionSlot s i op ≠ i :=
      demotionSlot_ne op (by rw [hInv.len2]; exact hl2) hi2 hvalid hInv.bound2
    simp only [tlb_translate, hp1, hp2]
    exact (l2HitStep_promoted c op _ hne hi2).2.2.2

/-! ### Claim C9 -/

/-- Some slot of `l` holds a valid, dirty mapping of `v`. -/
def dirtyIn (l : List TLBEntry) (v : Nat) : Prop :=
  ∃ k, k < l.length ∧ (l.getD k zeroEntry).valid = true ∧
    (l.getD k zeroEntry).virtual_page_number = v ∧
    (l.getD k zeroEntry).dirty = true

/-- A READ translate on a state whose L1 holds a valid dirty mapping of
the accessed page hits that L1 entry, preserves its dirty bit, and leaves
L2 untouched. -/
theorem readHitPreservesDirty {c : TLBConfig} {t : TLBState} (hInvT : TLBInv c t)
    (va pa : Nat) (hd : dirtyIn t.tlb_l1 (va >>> c.PAGE_SIZE_BITS)) :
    dirtyIn (tlb_translate c t va Op.OP_READ pa).1.tlb_l1 (va >>> c.PAGE_SIZE_BITS) ∧
    (tlb_translate c t va Op.OP_READ pa).1.tlb_l2 = t.tlb_l2 := by
  obtain ⟨k, hk, hkv, hkp, hkd⟩ := hd
  have hpne : probe t.tlb_l1 (va >>> c.PAGE_SIZE_BITS) ≠ none := probe_ne_none hk hkv hkp
  cases hp : probe t.tlb_l1 (va >>> c.PAGE_SIZE_BITS) with
  | none => exact absurd hp hpne
  | some j =>
      obtain ⟨hj, hjv, hjp⟩ := probe_some_match hp
      have hjk : j = k := by
        by_contra hne
        exact (hInvT.nodup1 j hj k hk hne hjv hkv) (by rw [hjp, hkp])
      subst hjk
      constructor
      · simp only [tlb_translate, hp, l1HitStep]
        refine ⟨j, ?_, ?_, ?_, ?_⟩
        · rw [List.length_set]
          exact hj
        · rw [getD_set_self _ _ hj]
          exact hjv
        · rw [getD_set_self _ _ hj]
          exact hjp
        · rw [getD_set_self _ _ hj]
          simpa [Op.isWrite] using hkd
      · simp only [tlb_translate, hp, l1HitStep]

/-- C9: a WRITE translate that hits (either level) leaves a valid dirty
entry for the page in the level that produced the hit (and, on an L2 hit,
also in L1 via promotion); a subsequent READ translate of the same page
hits that entry and keeps it dirty. -/
theorem C9_dirty_propagation {c : TLBConfig} {s : TLBState} (h : Reachable c s)
    (hl1 : 1 ≤ c.TLB_L1_SIZE) (hl2 : 2 ≤ c.TLB_L2_SIZE) (va pa pa2 : Nat) :
    (∀ j, probe s.tlb_l1 (va >>> c.PAGE_SIZE_BITS) = some j →
      dirtyIn (tlb_translate c s va Op.OP_WRITE pa).1.tlb_l1 (va >>> c.PAGE_SIZE_BITS) ∧
      dirtyIn (tlb_translate c (tlb_translate c s va Op.OP_WRITE pa).1 va
          Op.OP_READ pa2).1.tlb_l1 (va >>> c.PAGE_SIZE_BITS)) ∧
    (probe s.tlb_l1 (va >>> c.PAGE_SIZE_BITS) = none →
      ∀ j, probe s.tlb_l2 (va >>> c.PAGE_SIZE_BITS) = some j →
      dirtyIn (tlb_translate c s va Op.OP_WRITE pa).1.tlb_l1 (va >>> c.PAGE_SIZE_BITS) ∧
      dirtyIn (tlb_translate c s va Op.OP_WRITE pa).1.tlb_l2 (va >>> c.PAGE_SIZE_BITS) ∧
      dirtyIn (tlb_translate c (tlb_translate c s va Op.OP_WRITE pa).1 va
          Op.OP_READ pa2).1.tlb_l1 (va >>> c.PAGE_SIZE_BITS) ∧
      dirtyIn (tlb_translate c (tlb_translate c s va Op.OP_WRITE pa).1 va
          Op.OP_READ pa2).1.tlb_l2 (va >>> c.PAGE_SIZE_BITS)) := by
  have hInv := tlbInv_reachable h
  constructor
  · intro j hp
    obtain ⟨hj, hjv, hjp⟩ := probe_some_match hp
    have hd1 : dirtyIn (tlb_translate c s va Op.OP_WRITE pa).1.tlb_l1
        (va >>> c.PAGE_SIZE_BITS) := by
      simp only [tlb_translate, hp, l1HitStep]
      refine ⟨j, ?_, ?_, ?_, ?_⟩
      · rw [List.length_set]
        exact hj
      · rw [getD_set_self _ _ hj]
        exact hjv
      · rw [getD_set_self _ _ hj]
        exact hjp
      · rw [getD_set_self _ _ hj]
        rfl
    exact ⟨hd1, (readHitPreservesDirty (tlbInv_translate hInv va Op.OP_WRITE pa)
      va pa2 hd1).1⟩
  · intro hp1 j hp2
    obtain ⟨hj2, hvalid, hvpn⟩ := probe_some_match hp2
    have hne : demotionSlot s j Op.OP_WRITE ≠ j :=
      demotionSlot_ne Op.OP_WRITE (by rw [hInv.len2]; exact hl2) hj2 hvalid hInv.bound2
    have htr : (tlb_translate c s va Op.OP_WRITE pa).1 =
        (l2HitStep c { s with tlb_l1_misses := s.tlb_l1_misses + 1 } j Op.OP_WRITE
          (va &&& (1 <<< c.PAGE_SIZE_BITS - 1))).1 := by
      simp only [tlb_translate, hp1, hp2]
    obtain ⟨hout1, hout2, hlen2out, _⟩ :=
      l2HitStep_promoted c (s := { s with tlb_l1_misses := s.tlb_l1_misses + 1 })
        Op.OP_WRITE (va &&& (1 <<< c.PAGE_SIZE_BITS - 1)) hne hj2
    have hlp : find_lru_victim s.tlb_l1 < s.tlb_l1.length :=
      find_lru_victim_lt (by rw [hInv.len1]; omega)
    have hd1 : dirtyIn (tlb_translate c s va Op.OP_WRITE pa).1.tlb_l1
        (va >>> c.PAGE_SIZE_BITS) := by
      rw [htr, hout1]
      refine ⟨find_lru_victim s.tlb_l1, ?_, ?_, ?_, ?_⟩
      · rw [List.length_set]
        exact hlp
      · rw [getD_set_self _ _ hlp]
        exact hvalid
      · rw [getD_set_self _ _ hlp]
        exact hvpn
      · rw [getD_set_self _ _ hlp]
        rfl
    have hd2 : dirtyIn (tlb_translate c s va Op.OP_WRITE pa).1.tlb_l2
        (va >>> c.PAGE_SIZE_BITS) := by
      rw [htr]
      refine ⟨j, ?_, ?_, ?_, ?_⟩
      · rw [hlen2out]
        exact hj2
      · rw [hout2]
        exact hvalid
      · rw [hout2]
        exact hvpn
      · rw [hout2]
        rfl
    obtain ⟨hd1', hl2eq⟩ := readHitPreservesDirty (tlbInv_translate hInv va Op.OP_WRITE pa)
      va pa2 hd1
    exact ⟨hd1, hd2, hd1', by rw [hl2eq]; exact hd2⟩

/-! ### Claim C1 -/

/-- C1 (counterexample): `dupTrace` reaches a state whose L2 holds the
virtual page number 3 in two distinct valid slots — the demotion step of
the L2-hit promotion copied the dirty L1 entry for VPN 3 into the L2 LRU
slot while another valid L2 entry for VPN 3 remained. -/
theorem C1_counterexample :
    Reachable cEx sDup ∧
    (sDup.tlb_l2.getD 1 zeroEntry).valid = true ∧
    (sDup.tlb_l2.getD 2 zeroEntry).valid = true ∧
    (sDup.tlb_l2.getD 1 zeroEntry).virtual_page_number = 3 ∧
    (sDup.tlb_l2.getD 2 zeroEntry).virtual_page_number = 3 ∧
    ¬ noDupLevel sDup.tlb_l2 :=
  ⟨sDup_reachable, by decide, by decide, by decide, by decide, by decide⟩

/-- C1 (amended): in every reachable state, L1 holds at most one valid
entry per virtual page number; the same does not hold for L2, where the
demotion step of promotion can create duplicates. -/
theorem C1_l1_no_duplicate {c : TLBConfig} {s : TLBState} (h : Reachable c s) :
    noDupLevel s.tlb_l1 :=
  (tlbInv_reachable h).nodup1

/-- Witness for the amended C1 at the concrete reachable state `sDup`. -/
theorem C1_l1_no_duplicate_witness : noDupLevel sDup.tlb_l1 :=
  C1_l1_no_duplicate sDup_reachable

/-! ### Claim C2 -/

/-- C2 (counterexample): from the reachable state `sDup` (whose L2 holds
VPN 3 twice), `tlb_invalidate 3` stops at the first L2 match, leaving a
valid L2 entry that still maps VPN 3. -/
theorem C2_counterexample :
    Reachable cEx sDup ∧
    ((tlb_invalidate cEx sDup 3).tlb_l2.getD 2 zeroEntry).valid = true ∧
    ((tlb_invalidate cEx sDup 3).tlb_l2.getD 2 zeroEntry).virtual_page_number = 3 ∧
    2 < (tlb_invalidate cEx sDup 3).tlb_l2.length :=
  ⟨sDup_reachable, by decide, by decide, by decide⟩

/-- C2 (amended): for a reachable state whose L2 holds at most one valid
entry for `v` (L1 needs no such proviso: reachable states never duplicate
in L1), after `tlb_invalidate v` no valid entry of either level maps `v`. -/
theorem C2_invalidate_complete {c : TLBConfig} {s : TLBState} (h : Reachable c s)
    (v : Nat) (hone : atMostOneValidVpn s.tlb_l2 v) :
    (∀ k, k < (tlb_invalidate c s v).tlb_l1.length →
      ¬(((tlb_invalidate c s v).tlb_l1.getD k zeroEntry).valid = true ∧
        ((tlb_invalidate c s v).tlb_l1.getD k zeroEntry).virtual_page_number = v)) ∧
    (∀ k, k < (tlb_invalidate c s v).tlb_l2.length →
      ¬(((tlb_invalidate c s v).tlb_l2.getD k zeroEntry).valid = true ∧
        ((tlb_invalidate c s v).tlb_l2.getD k zeroEntry).virtual_page_number = v)) := by
  have hInv := tlbInv_reachable h
  simp only [tlb_invalidate]
  cases h1 : probe s.tlb_l1 v with
  | none =>
      cases h2 : probe s.tlb_l2 v with
      | none =>
          constructor
          · rintro k hk ⟨hv, hp⟩
            exact probe_none_not_match h1 k hk hv hp
          · rintro k hk ⟨hv, hp⟩
            exact probe_none_not_match h2 k hk hv hp
      | some j =>
          obtain ⟨hj, hjv, hjp⟩ := probe_some_match h2
          constructor
          · rintro k hk ⟨hv, hp⟩
            exact probe_none_not_match h1 k hk hv hp
          · rintro k hk ⟨hv, hp⟩
            rw [List.length_set] at hk
            by_cases hjk : j = k
            · subst hjk
              rw [getD_set_self _ _ hj] at hv
              simp at hv
            · rw [getD_set_ne _ _ hjk] at hv hp
              exact hjk (hone j hj k hk hjv hjp hv hp)
  | some i =>
      obtain ⟨hi, hiv, hip⟩ := probe_some_match h1
      have hL1 : ∀ k, k < (s.tlb_l1.set i
          { s.tlb_l1.getD i zeroEntry with valid := false }).length →
          ¬(((s.tlb_l1.set i { s.tlb_l1.getD i zeroEntry with valid := false }).getD k
              zeroEntry).valid = true ∧
            ((s.tlb_l1.set i { s.tlb_l1.getD i zeroEntry with valid := false }).getD k
              zeroEntry).virtual_page_number = v) := by
        rintro k hk ⟨hv, hp⟩
        rw [List.length_set] at hk
        by_cases hik : i = k
        · subst hik
          rw [getD_set_self _ _ hi] at hv
          simp at hv
        · rw [getD_set_ne _ _ hik] at hv hp
          exact (hInv.nodup1 i hi k hk hik hiv hv) (by rw [hip, hp])
      cases h2 : probe s.tlb_l2 v with
      | none =>
          refine ⟨hL1, ?_⟩
          rintro k hk ⟨hv, hp⟩
          exact probe_none_not_match h2 k hk hv hp
      | some j =>
          obtain ⟨hj, hjv, hjp⟩ := probe_some_match h2
          refine ⟨hL1, ?_⟩
          rintro k hk ⟨hv, hp⟩
          rw [List.length_set] at hk
          by_cases hjk : j = k
          · subst hjk
            rw [getD_set_self _ _ hj] at hv
            simp at hv
          · rw [getD_set_ne _ _ hjk] at hv hp
            exact hjk (hone j hj k hk hjv hjp hv hp)

/-- Witness for the amended C2 at the concrete reachable state `sOne`. -/
theorem C2_invalidate_complete_witness :
    atMostOneValidVpn sOne.tlb_l2 1 ∧
    ((∀ k, k < (tlb_invalidate cEx sOne 1).tlb_l1.length →
      ¬(((tlb_invalidate cEx sOne 1).tlb_l1.getD k zeroEntry).valid = true ∧
        ((tlb_invalidate cEx sOne 1).tlb_l1.getD k zeroEntry).virtual_page_number = 1)) ∧
    (∀ k, k < (tlb_invalidate cEx sOne 1).tlb_l2.length →
      ¬(((tlb_invalidate cEx sOne 1).tlb_l2.getD k zeroEntry).valid = true ∧
        ((tlb_invalidate cEx sOne 1).tlb_l2.getD k zeroEntry).virtual_page_number = 1))) :=
  ⟨by decide, C2_invalidate_complete sOne_reachable 1 (by decide)⟩

/-! ### Concrete witnesses for the hit-path claims -/

/-- Three fills: L1 ends as [VPN 3, VPN 2], L2 as [1, 2, 3, free], so a
further access to VPN 1 misses L1 and hits L2 at slot 0. -/
def sABC : TLBState := runEvents cEx (startState cEx)
  [.translateEv 0x1000 .OP_READ 0x1000, .translateEv 0x2000 .OP_READ 0x2000,
   .translateEv 0x3000 .OP_READ 0x3000]

theorem sABC_reachable : Reachable cEx sABC :=
  reachable_runEvents cEx Reachable.start _

/-- Witness for C6 at the concrete reachable state `sABC`. -/
theorem C6_promotion_preserves_hit_witness :
    probe sABC.tlb_l1 (0x1000 >>> cEx.PAGE_SIZE_BITS) = none ∧
    probe sABC.tlb_l2 (0x1000 >>> cEx.PAGE_SIZE_BITS) = some 0 ∧
    (demotionSlot sABC 0 Op.OP_READ ≠ 0 ∧
      ∃ k, k < (tlb_translate cEx sABC 0x1000 Op.OP_READ 0).1.tlb_l1.length ∧
        ((tlb_translate cEx sABC 0x1000 Op.OP_READ 0).1.tlb_l1.getD k
          zeroEntry).valid = true ∧
        ((tlb_translate cEx sABC 0x1000 Op.OP_READ 0).1.tlb_l1.getD k
          zeroEntry).virtual_page_number = 0x1000 >>> cEx.PAGE_SIZE_BITS) :=
  ⟨by decide, by decide,
    C6_promotion_preserves_hit sABC_reachable (by decide) (by decide) 0x1000 Op.OP_READ 0
      (by decide) (by decide)⟩

/-- Witness for C8 at the concrete reachable state `sOne`. -/
theorem C8_hit_result_witness :
    probe sOne.tlb_l1 (0x1234 >>> cEx.PAGE_SIZE_BITS) = some 0 ∧
    (tlb_translate cEx sOne 0x1234 Op.OP_READ 0).2 =
      ((sOne.tlb_l1.getD 0 zeroEntry).physical_page_number <<< cEx.PAGE_SIZE_BITS) |||
        (0x1234 &&& (1 <<< cEx.PAGE_SIZE_BITS - 1)) :=
  ⟨by decide,
    (C8_hit_result sOne_reachable (by decide) 0x1234 Op.OP_READ 0).1 0 (by decide)⟩

/-- Witness for C9 at the concrete reachable state `sOne`. -/
theorem C9_dirty_propagation_witness :
    probe sOne.tlb_l1 (0x1000 >>> cEx.PAGE_SIZE_BITS) = some 0 ∧
    (dirtyIn (tlb_translate cEx sOne 0x1000 Op.OP_WRITE 0).1.tlb_l1
        (0x1000 >>> cEx.PAGE_SIZE_BITS) ∧
      dirtyIn (tlb_translate cEx (tlb_translate cEx sOne 0x1000 Op.OP_WRITE 0).1 0x1000
          Op.OP_READ 0).1.tlb_l1 (0x1000 >>> cEx.PAGE_SIZE_BITS)) :=
  ⟨by decide,
    (C9_dirty_propagation sOne_reachable (by decide) (by decide) 0x1000 0 0).1 0
      (by decide)⟩
